import Mathlib

/-!
Shallow embedding of the fe-dagostino/lock-free repository core:
the chunked arena allocator (`src/include/core/arena_allocator.h`),
the FIFO queue (`src/unnamed/part_008` and `src/include/queue.h`),
the spin-lock mutex (`core::mutex`), and the multi-queue
(`src/include/multi_queue.h`).

The embedding gives single-threaded (sequential) semantics: every
atomic CAS is executed without contention, so a CAS whose expected
value was just loaded succeeds.  Slot addresses are natural numbers;
the raw memory allocator is modelled as an inexhaustible supply of
fresh addresses.  Machine counters are modelled as `Nat`: no reachable
execution in the claims below exercises unsigned wrap-around
(underflow of `_free_slots` is ruled out by the free-list invariant
proved in this file).
-/

namespace LockFree

/-- Embeds `core::result_t` as defined in the revision of `core/types.h`
    carried in `src/unnamed/part_014` (the one used by
    `core::arena_allocator`). -/
inductive Result where
  | eFailure
  | eSuccess
  | eEmpty
  | eNullPointer
  | eDoubleFree
  | eNotImplemented
  | eTimeout
  | eSignaled
deriving DecidableEq, Repr

/-- One `memory_slot` of `core::arena_allocator`: the
    `core::memory_address` header holds the next-free link (`_addr`),
    the `DESTROY` ("in use") flag and the owning arena's registry
    index (`_counter`); `_user_data` is the constructed payload
    (`none` once the destructor has run or before construction). -/
structure Slot (τ : Type) where
  next    : Option Nat
  inUse   : Bool
  index   : Nat
  payload : Option τ
deriving DecidableEq, Repr

/-- Template parameters of `core::arena_allocator` together with the
    compile-time `requires` constraints of the source.  `slot_bytes`
    stands for `sizeof(memory_slot)` (only used for `_capacity`). -/
structure ArenaParams where
  chunk_size      : Nat
  initial_size    : Nat
  size_limit      : Nat
  alloc_threshold : Nat
  slot_bytes      : Nat
  chunk_pos       : 0 < chunk_size
  init_ge         : chunk_size ≤ initial_size

/-- Mutable state of one `core::arena_allocator` instance.
    `store` is the memory: slot address to slot contents, `none`
    outside every live chunk.  `chunks` lists the `_first_slot`
    address of each chunk in `_mem_chunks` order (a chunk occupies
    the addresses `first ≤ a < first + chunk_size`).  `nextAddr` is
    the fresh-address supply of the raw-allocator model.  `sem` is
    the binary semaphore `_sem_th_alloc` (count in {0,1}).
    `dtorCalls` is an event trace of `~value_type()` invocations,
    recorded by slot address. -/
structure ArenaState (τ : Type) where
  store     : Nat → Option (Slot τ)
  chunks    : List Nat
  nextFree  : Option Nat
  maxLength : Nat
  freeSlots : Nat
  capacity  : Nat
  nextAddr  : Nat
  sem       : Bool
  dtorCalls : List Nat
  ndx       : Nat

/-- Point update of the slot store. -/
def setSlot {τ : Type} (st : Nat → Option (Slot τ)) (a : Nat) (sl : Slot τ) :
    Nat → Option (Slot τ) :=
  fun b => if b = a then some sl else st b

variable (P : ArenaParams) {τ : Type}

/-- Net effect of the slot-initialization loop of
    `add_mem_chuck`/`unsafe_add_mem_chuck`: every slot of the new
    chunk gets `set_index(_ndx_instance)` and `set_free` with the next
    slot of the chunk, and the last slot's link is then overwritten
    with the old `_next_free` (`_last_slot->set_free(_next_free)`).
    Raw chunk memory starts unconstructed, hence `payload := none`. -/
def writeChunk (ndx first cs : Nat) (tail : Option Nat)
    (st : Nat → Option (Slot τ)) : Nat → Option (Slot τ) :=
  fun a =>
    if first ≤ a ∧ a < first + cs then
      some { next    := if a + 1 < first + cs then some (a + 1) else tail,
             inUse   := false,
             index   := ndx,
             payload := none }
    else st a

/-- Embeds `arena_allocator::unsafe_add_mem_chuck` (the mutex-taking
    `add_mem_chuck` performs the same state change; the lock is
    invisible single-threadedly).  The raw allocator of the model
    always succeeds and returns the fresh address `nextAddr`, so the
    function returns `true`. -/
def addMemChunk (s : ArenaState τ) : Bool × ArenaState τ :=
  let first := s.nextAddr
  let chunks := s.chunks ++ [first]
  (true,
   { s with
     store     := writeChunk s.ndx first P.chunk_size s.nextFree s.store,
     chunks    := chunks,
     nextFree  := some first,
     maxLength := P.chunk_size * chunks.length,
     freeSlots := s.freeSlots + P.chunk_size,
     capacity  := P.slot_bytes * P.chunk_size * chunks.length,
     nextAddr  := s.nextAddr + P.chunk_size })

/-- Prologue of `arena_allocator::allocate` (executed after the spin
    on `_mtx_next.try_lock()` succeeds): with `alloc_threshold > 0`
    it only releases `_sem_th_alloc` when
    `_free_slots <= alloc_threshold`; with `alloc_threshold == 0` and
    an empty free list it calls `unsafe_add_mem_chuck()` — the source
    performs no `size_limit` test on this synchronous path. -/
def allocPre (s : ArenaState τ) : ArenaState τ :=
  if 0 < P.alloc_threshold then
    if s.freeSlots ≤ P.alloc_threshold then { s with sem := true } else s
  else
    if s.nextFree = none then (addMemChunk P s).2 else s

/-- Embeds `arena_allocator::allocate(args...)`, sequential semantics: after
    the prologue (see `allocPre`) it pops `_next_free`, decrements
    `_free_slots`, marks the slot `set_in_use()` and
    placement-constructs the payload `v`.  Returns the payload
    pointer (identified with the slot address) or `none`.  The inner
    `store a = none` branch is a guard for a dangling `_next_free`,
    which dereferences freely in C++ and is unreachable from states
    satisfying the free-list invariant. -/
def allocate (s₀ : ArenaState τ) (v : τ) : Option Nat × ArenaState τ :=
  let s := allocPre P s₀
  match s.nextFree with
  | none => (none, s)
  | some a =>
    match s.store a with
    | none => (none, s)
    | some sl =>
      (some a,
       { s with
         nextFree  := sl.next,
         freeSlots := s.freeSlots - 1,
         store     := setSlot s.store a
                        { sl with next := none, inUse := true, payload := some v } })

/-- Embeds `arena_allocator::deallocate(userdata)`, sequential semantics.
    A null pointer is rejected first; otherwise `~value_type()` runs
    unconditionally (recorded in `dtorCalls`, payload destroyed)
    BEFORE the double-free test `pSlot->is_free()`.  On the
    double-free branch nothing else changes.  Otherwise the slot is
    pushed on the owning arena's free list: `set_free(_next_free)`
    (address set to the old head, `DESTROY` cleared, counter preserved),
    `_next_free := pSlot`, `++_free_slots`.  The registry lookup
    `instances_table[pSlot->get_index()]` resolves to this arena in
    the one-arena model.  The `store a = none` branch guards a
    pointer outside every chunk (undefined behaviour in the source). -/
def deallocate (s : ArenaState τ) (p : Option Nat) : Result × ArenaState τ :=
  match p with
  | none => (Result.eNullPointer, s)
  | some a =>
    match s.store a with
    | none => (Result.eFailure, s)
    | some sl =>
      let s := { s with
                 store := setSlot s.store a { sl with payload := none },
                 dtorCalls := s.dtorCalls ++ [a] }
      if sl.inUse = false then
        (Result.eDoubleFree, s)
      else
        (Result.eSuccess,
         { s with
           store := setSlot s.store a
                      { sl with payload := none, next := s.nextFree, inUse := false },
           nextFree := some a,
           freeSlots := s.freeSlots + 1 })

/-- Embeds `arena_allocator::clear()`: for every slot of every chunk run
    `~value_type()` when `in_use()`, release every chunk to the raw
    allocator, empty `_mem_chunks`, and zero
    `_max_length`, `_free_slots`, `_capacity`, `_next_free`. -/
def clearArena (s : ArenaState τ) : ArenaState τ :=
  let dtors := s.chunks.flatMap (fun first =>
    (List.range P.chunk_size).filterMap (fun i =>
      match s.store (first + i) with
      | some sl => if sl.inUse then some (first + i) else none
      | none => none))
  { s with
    store     := fun _ => none,
    chunks    := [],
    maxLength := 0,
    freeSlots := 0,
    capacity  := 0,
    nextFree  := none,
    dtorCalls := s.dtorCalls ++ dtors }

/-- One wake-up of the background prefetch thread started by the
    constructor when `alloc_threshold > 0` (exit flag not set): it
    acquires `_sem_th_alloc`, and only when
    `max_length() < size_limit || size_limit == 0` calls
    `add_mem_chuck()`. -/
def workerStep (s : ArenaState τ) : ArenaState τ :=
  if s.sem then
    let s := { s with sem := false }
    if s.maxLength < P.size_limit ∨ P.size_limit = 0 then (addMemChunk P s).2 else s
  else s

/-- State of a freshly zero-initialized arena before the constructor
    body runs (`_next_free(nullptr)`, counters 0, semaphore count 0). -/
def initState : ArenaState τ :=
  { store := fun _ => none, chunks := [], nextFree := none,
    maxLength := 0, freeSlots := 0, capacity := 0,
    nextAddr := 0, sem := false, dtorCalls := [], ndx := 0 }

/-- The constructor loop `while (max_length() < initial_size)
    { if (add_mem_chuck() == false) break; }`, fuelled: since each
    chunk adds `chunk_size ≥ 1` slots, `initial_size` iterations
    always suffice and the break branch never fires in the model. -/
def ctorLoop : Nat → ArenaState τ → ArenaState τ
  | 0, s => s
  | fuel + 1, s =>
    if s.maxLength < P.initial_size then ctorLoop fuel (addMemChunk P s).2 else s

/-- The `arena_allocator` constructor (instance index capture is
    trivial in the one-arena model). -/
def mkArena : ArenaState τ := ctorLoop P P.initial_size initState

/-- Embeds `arena_allocator::length()`: `_max_length - _free_slots`. -/
def arenaLength (s : ArenaState τ) : Nat := s.maxLength - s.freeSlots

/-- The public operations a user (or the prefetch worker) can apply
    to an arena after construction. -/
inductive ArenaOp (τ : Type) where
  | alloc (v : τ)
  | dealloc (p : Option Nat)
  | worker
  | clearOp

/-- Apply one operation. -/
def applyOp (s : ArenaState τ) : ArenaOp τ → ArenaState τ
  | ArenaOp.alloc v => (allocate P s v).2
  | ArenaOp.dealloc p => (deallocate s p).2
  | ArenaOp.worker => workerStep P s
  | ArenaOp.clearOp => clearArena P s

/-- Apply a sequence of operations in order. -/
def runOps (s : ArenaState τ) (ops : List (ArenaOp τ)) : ArenaState τ :=
  ops.foldl (applyOp P) s

/-- A state reachable from a freshly constructed arena by public
    operations. -/
def ArenaReachable (s : ArenaState τ) : Prop :=
  ∃ ops : List (ArenaOp τ), s = runOps P (mkArena P) ops

/-! ## The FIFO queue

`lock_free::queue` of `src/unnamed/part_008`: nodes are
`core::node_t<data_t,false,true,...>` values (queue link `_next` +
payload `_data`) allocated from a dedicated arena; `_head`/`_tail`
are the queue ends.  `core::arena_allocator` is a legitimate
instantiation of the `arena_t` template parameter and is the arena
the model uses. -/

/-- Embeds `core::node_t<data_t,false,true,use_atomic>`: queue link `_next`
    (constructed `nullptr` by `plug_next`) and payload `_data`. -/
structure Node (τ : Type) where
  qnext : Option Nat
  data  : τ
deriving DecidableEq, Repr

/-- State of one `lock_free::queue` (part_008 revision): node arena
    plus `_head` and `_tail`. -/
structure QState (τ : Type) where
  arena : ArenaState (Node τ)
  head  : Option Nat
  tail  : Option Nat

/-- The queue constructor: default-constructed arena, null head/tail. -/
def mkQueue : QState τ := { arena := mkArena P, head := none, tail := none }

/-- Embeds `queue::_size_imp` (part_008): returns `_arena.length()`
    (the lock-free variant's `lock()`/`unlock()` are
    `eNotImplemented` no-ops). -/
def sizeP8 (s : QState τ) : Nat := arenaLength s.arena

/-- The CAS loop of `queue::_push_imp_lockfree` after `create_node`
    succeeded, sequential semantics (each CAS whose expected value
    was just loaded succeeds), fuelled; `(none, s)` means the loop
    did not finish within `fuel` iterations.  Branches in source
    order: (1) `old_head == nullptr && old_tail != nullptr` — CAS
    `_tail` to null and retry; (2) `old_tail == nullptr` — CAS
    `_tail` to the new node, then CAS `_head` to it when `old_head`
    was null; (3) otherwise read `old_tail->_next`, retry when it is
    non-null, else CAS it to the new node and exchange `_tail`.
    The dangling-tail dereferences (`store t = none` or a destroyed
    payload) are undefined behaviour in C++ and guarded here;
    they are unreachable from queue-reachable states. -/
def pushLoop : Nat → QState τ → Nat → Option Result × QState τ
  | 0, s, _ => (none, s)
  | fuel + 1, s, n =>
    match s.tail, s.head with
    | some _, none => pushLoop fuel { s with tail := none } n
    | none, oldHead =>
      let s := { s with tail := some n }
      (some Result.eSuccess, if oldHead = none then { s with head := some n } else s)
    | some t, some _ =>
      match s.arena.store t with
      | none => (none, s)
      | some sl =>
        match sl.payload with
        | none => (none, s)
        | some nd =>
          if nd.qnext ≠ none then
            pushLoop fuel s n
          else
            let st := setSlot s.arena.store t
                        { sl with payload := some { nd with qnext := some n } }
            (some Result.eSuccess,
             { s with arena := { s.arena with store := st }, tail := some n })

/-- Embeds `queue::_push_imp_lockfree`: allocate the node
    (`create_node( std::move(data) )`, i.e. `node_t` constructed with
    `_next = nullptr` and `_data = data`), fail with `eFailure` on a
    null node, otherwise run the CAS loop. -/
def pushLF (fuel : Nat) (s : QState τ) (v : τ) : Option Result × QState τ :=
  match allocate P s.arena { qnext := none, data := v } with
  | (none, ar) => (some Result.eFailure, { s with arena := ar })
  | (some n, ar) => pushLoop fuel { s with arena := ar } n

/-- Embeds `queue::_pop_imp_lockfree`, sequential semantics: if `_head` is
    null return `eEmpty`; otherwise the CAS of `_head` to
    `old_head->_next` succeeds first try.  Then move the payload out,
    null the detached node's `_next`, and return `destroy_node`'s
    result (`_arena.deallocate`).  Note: no store or CAS of `_tail`
    anywhere in this function.  Dangling-head dereference guarded as
    in `pushLoop`. -/
def popLF (s : QState τ) : Result × Option τ × QState τ :=
  match s.head with
  | none => (Result.eEmpty, none, s)
  | some h =>
    match s.arena.store h with
    | none => (Result.eFailure, none, s)
    | some sl =>
      match sl.payload with
      | none => (Result.eFailure, none, s)
      | some nd =>
        let s := { s with head := nd.qnext }
        let st := setSlot s.arena.store h
                    { sl with payload := some { nd with qnext := none } }
        let s := { s with arena := { s.arena with store := st } }
        let r := deallocate s.arena (some h)
        (r.1, some nd.data, { s with arena := r.2 })

/-- Embeds `queue::_push_imp_default` (raw/mutex/spinlock backends, the lock
    held for the whole body): allocate a node; when `_head` is null
    set both ends to it, else link `_tail->_next` and advance
    `_tail`.  Result `eFailure` when `create_node` returned null.
    The `_tail` dereference when `_head` is non-null is guarded. -/
def pushD (s : QState τ) (v : τ) : Result × QState τ :=
  match allocate P s.arena { qnext := none, data := v } with
  | (none, ar) => (Result.eFailure, { s with arena := ar })
  | (some n, ar) =>
    let s := { s with arena := ar }
    match s.head with
    | none => (Result.eSuccess, { s with head := some n, tail := some n })
    | some _ =>
      match s.tail with
      | none => (Result.eFailure, s)
      | some t =>
        match s.arena.store t with
        | none => (Result.eFailure, s)
        | some sl =>
          match sl.payload with
          | none => (Result.eFailure, s)
          | some nd =>
            let st := setSlot s.arena.store t
                        { sl with payload := some { nd with qnext := some n } }
            (Result.eSuccess,
             { s with arena := { s.arena with store := st }, tail := some n })

/-- Embeds `queue::_pop_imp_default`: when `_head` is non-null, detach it,
    advance `_head` to `_head->_next`, move the data out, deallocate
    the detached node (its result is returned), and null `_tail`
    when `_head` became null.  `eEmpty` on an empty queue. -/
def popD (s : QState τ) : Result × Option τ × QState τ :=
  match s.head with
  | none => (Result.eEmpty, none, s)
  | some h =>
    match s.arena.store h with
    | none => (Result.eFailure, none, s)
    | some sl =>
      match sl.payload with
      | none => (Result.eFailure, none, s)
      | some nd =>
        let s := { s with head := nd.qnext }
        let r := deallocate s.arena (some h)
        let s := { s with arena := r.2 }
        let s := if s.head = none then { s with tail := none } else s
        (r.1, some nd.data, s)

/-! ## The `src/include/queue.h` revision of the queue

This revision is lock-free only, keeps its own atomic `_items`
counter, and its `pop` CASes `_tail` to null when the detached node
equals `_tail`. -/

/-- State of a `lock_free::queue` from `src/include/queue.h`:
    arena, `_items`, `_head`, `_tail`. -/
structure IQState (τ : Type) where
  arena : ArenaState (Node τ)
  items : Nat
  head  : Option Nat
  tail  : Option Nat

/-- Embeds `queue::size()` of `src/include/queue.h`: `_items.load(...)`. -/
def sizeIQ (s : IQState τ) : Nat := s.items

/-- Embeds `queue::pop` of `src/include/queue.h`, sequential semantics:
    null head gives `false`; otherwise CAS `_head` to
    `cur_head->_next` (succeeds), then when `cur_head == _tail` CAS
    `_tail` to null (succeeds), copy `_data` out, null the detached
    node's `_next`, `destroy_node`, and CAS-decrement `_items`.
    Returns the boolean result and the extracted value. -/
def popIQ (s : IQState τ) : Bool × Option τ × IQState τ :=
  match s.head with
  | none => (false, none, s)
  | some h =>
    match s.arena.store h with
    | none => (false, none, s)
    | some sl =>
      match sl.payload with
      | none => (false, none, s)
      | some nd =>
        let s := { s with head := nd.qnext }
        let s := if s.tail = some h then { s with tail := none } else s
        let st := setSlot s.arena.store h
                    { sl with payload := some { nd with qnext := none } }
        let s := { s with arena := { s.arena with store := st } }
        let r := deallocate s.arena (some h)
        (true, some nd.data, { s with arena := r.2, items := s.items - 1 })

/-! ## The spin-lock `core::mutex` -/

/-- Embeds `core::mutex::try_lock`:
    `return !std::atomic_exchange_explicit(&_lock, true, acquire);`.
    Input is the current `_lock` flag; output is the returned boolean
    and the new `_lock` value (always `true`). -/
def tryLock (lock : Bool) : Bool × Bool := (!lock, true)

/-! ## The multi-queue (`src/include/multi_queue.h`, first revision:
the one building on the `ds_impl_t::lockfree` queue) -/

/-- State of a `lock_free::multi_queue` with `N` sub-queues:
    `m_array` and the round-robin pop cursor `m_ndx_pop`. -/
structure MQState (τ : Type) (N : Nat) where
  qs     : Fin N → QState τ
  ndxPop : Nat

/-- The `multi_queue` constructor: default-constructed sub-queues,
    cursor 0. -/
def mkMQ (N : Nat) : MQState τ N :=
  { qs := fun _ => mkQueue P, ndxPop := 0 }

/-- Embeds `multi_queue::size()`: the sum of `queue::size()` over `m_array`. -/
def mqSize {N : Nat} (s : MQState τ N) : Nat :=
  ∑ i : Fin N, sizeP8 (s.qs i)

/-- Embeds `multi_queue::push(id, data)`: push on `m_array[id]`
    (the source asserts `id < queues`; the guard models the
    assertion). -/
def mqPushAt {N : Nat} (fuel : Nat) (s : MQState τ N) (id : Nat) (v : τ) :
    Option Result × MQState τ N :=
  if h : id < N then
    let r := pushLF P fuel (s.qs ⟨id, h⟩) v
    (r.1, { s with qs := Function.update s.qs ⟨id, h⟩ r.2 })
  else (some Result.eFailure, s)

/-- Embeds `multi_queue::pop(data)` (no queue-id), sequential semantics:
    read the cursor `qid`, CAS it to `qid+1` when `qid+1 < queues`
    else to `0` (the CAS succeeds), and pop from `m_array[qid]`
    alone.  Cursor values `≥ N` would index out of bounds in C++ and
    are guarded (the cursor never leaves `[0, N)` in the model). -/
def mqPop {N : Nat} (s : MQState τ N) : Result × Option τ × MQState τ N :=
  let qid := s.ndxPop
  let cursor := if qid + 1 < N then qid + 1 else 0
  if h : qid < N then
    let r := popLF (s.qs ⟨qid, h⟩)
    (r.1, r.2.1, { s with qs := Function.update s.qs ⟨qid, h⟩ r.2.2, ndxPop := cursor })
  else (Result.eFailure, none, { s with ndxPop := cursor })

/-! ## Invariants and representation predicates -/

/-- The free list rooted at free-head `h` visits exactly the
    addresses of `L` through the slot-header `next` links and ends at
    null; every visited slot is present and FREE. -/
inductive FreeChain {τ : Type} (st : Nat → Option (Slot τ)) :
    Option Nat → List Nat → Prop where
  | nil : FreeChain st none []
  | cons {a : Nat} {L : List Nat} {sl : Slot τ} :
      st a = some sl → sl.inUse = false → FreeChain st sl.next L →
      FreeChain st (some a) (a :: L)

/-- Structural invariant of an arena at quiescence: the free list is
    a duplicate-free chain `L`; `U` collects the IN_USE slots; every
    store entry is below the fresh-address watermark; and the
    counters agree with `L` and `U` and with the chunk count. -/
def ArenaInv (s : ArenaState τ) : Prop :=
  ∃ L U : List Nat,
    FreeChain s.store s.nextFree L ∧
    (∀ a ∈ U, ∃ sl, s.store a = some sl ∧ sl.inUse = true) ∧
    (∀ a sl, s.store a = some sl → sl.inUse = true → a ∈ U) ∧
    (L ++ U).Nodup ∧
    s.freeSlots = L.length ∧
    s.maxLength = L.length + U.length ∧
    s.maxLength = P.chunk_size * s.chunks.length ∧
    (∀ a, s.store a ≠ none → a < s.nextAddr)

/-- The queue chain from `head`: `addrs` are the node addresses and
    `vs` the payload values in order; every node slot is present and
    IN_USE, carries a constructed node, and links to its successor
    through the node's `_next`, ending at null. -/
inductive NodeChain {τ : Type} (st : Nat → Option (Slot (Node τ))) :
    Option Nat → List Nat → List τ → Prop where
  | nil : NodeChain st none [] []
  | cons {a : Nat} {addrs : List Nat} {vs : List τ} {sl : Slot (Node τ)}
      {nd : Node τ} {v : τ} :
      st a = some sl → sl.inUse = true → sl.payload = some nd → nd.data = v →
      NodeChain st nd.qnext addrs vs →
      NodeChain st (some a) (a :: addrs) (v :: vs)

/-- Representation of a part_008 queue holding values `vs` (push
    phase: tail points at the last node). -/
def QRep (s : QState τ) (vs : List τ) : Prop :=
  ∃ addrs : List Nat,
    NodeChain s.arena.store s.head addrs vs ∧
    addrs.Nodup ∧
    s.tail = addrs.getLast? ∧
    ArenaInv P s.arena

/-- Representation used while draining: like `QRep` but with no
    constraint on `_tail` (the part_008 lock-free pop never reads or
    writes `_tail`). -/
def DRep (s : QState τ) (vs : List τ) : Prop :=
  ∃ addrs : List Nat,
    NodeChain s.arena.store s.head addrs vs ∧
    addrs.Nodup ∧
    ArenaInv P s.arena

/-- Push a whole list of values, collecting the results. -/
def pushAllLF (fuel : Nat) (s : QState τ) :
    List τ → List (Option Result) × QState τ
  | [] => ([], s)
  | v :: vs =>
    let rs := pushLF P fuel s v
    let rest := pushAllLF fuel rs.2 vs
    (rs.1 :: rest.1, rest.2)

/-- Pop `n` times with the lock-free pop, collecting results and
    extracted values. -/
def drainLF : Nat → QState τ → List (Result × Option τ) × QState τ
  | 0, s => ([], s)
  | n + 1, s =>
    let r := popLF s
    let rest := drainLF n r.2.2
    ((r.1, r.2.1) :: rest.1, rest.2)

/-- Push a whole list with the default (serialized) push. -/
def pushAllD (s : QState τ) : List τ → List Result × QState τ
  | [] => ([], s)
  | v :: vs =>
    let rs := pushD P s v
    let rest := pushAllD rs.2 vs
    (rs.1 :: rest.1, rest.2)

/-- Pop `n` times with the default (serialized) pop. -/
def drainD : Nat → QState τ → List (Result × Option τ) × QState τ
  | 0, s => ([], s)
  | n + 1, s =>
    let r := popD s
    let rest := drainD n r.2.2
    ((r.1, r.2.1) :: rest.1, rest.2)

end LockFree

namespace LockFree

/-! Concrete template-parameter instantiations used by witnesses and
counterexamples. -/

/-- Parameters `chunk_size=2, initial_size=2, size_limit=2, alloc_threshold=0`:
    the configuration of spec scenario 3 ("size-limited refusal"). -/
def P221 : ArenaParams :=
  { chunk_size := 2, initial_size := 2, size_limit := 2, alloc_threshold := 0,
    slot_bytes := 1, chunk_pos := by decide, init_ge := by decide }

/-- Parameters `chunk_size=1, initial_size=1, size_limit=0 (unbounded),
    alloc_threshold=0 (synchronous growth)`. -/
def P110 : ArenaParams :=
  { chunk_size := 1, initial_size := 1, size_limit := 0, alloc_threshold := 0,
    slot_bytes := 1, chunk_pos := by decide, init_ge := by decide }

/-! ## Lemmas: the free chain -/

variable {τ : Type}

lemma freeChain_congr {st st' : Nat → Option (Slot τ)} {h : Option Nat} {L : List Nat}
    (hc : FreeChain st h L) (heq : ∀ b ∈ L, st' b = st b) : FreeChain st' h L := by
  induction hc with
  | nil => exact FreeChain.nil
  | @cons a L sl ha hu _ ih =>
    exact FreeChain.cons (by rw [heq a (by simp)]; exact ha) hu
      (ih fun b hb => heq b (by simp [hb]))

lemma freeChain_free {st : Nat → Option (Slot τ)} {h : Option Nat} {L : List Nat}
    (hc : FreeChain st h L) : ∀ a ∈ L, ∃ sl, st a = some sl ∧ sl.inUse = false := by
  induction hc with
  | nil => simp
  | @cons a L sl ha hu _ ih =>
    intro b hb
    rcases List.mem_cons.mp hb with rfl | hb
    · exact ⟨sl, ha, hu⟩
    · exact ih b hb

lemma writeChunk_outside (ndx first cs : Nat) (tl : Option Nat)
    (st : Nat → Option (Slot τ)) (a : Nat) (h : ¬(first ≤ a ∧ a < first + cs)) :
    writeChunk ndx first cs tl st a = st a := by
  simp only [writeChunk, if_neg h]

lemma writeChunk_inside (ndx first cs : Nat) (tl : Option Nat)
    (st : Nat → Option (Slot τ)) (a : Nat) (h1 : first ≤ a) (h2 : a < first + cs) :
    writeChunk ndx first cs tl st a =
      some { next := if a + 1 < first + cs then some (a + 1) else tl,
             inUse := false, index := ndx, payload := none } := by
  simp only [writeChunk, if_pos (And.intro h1 h2)]

lemma freeChain_writeChunk {ndx first cs : Nat} {tl : Option Nat}
    {st : Nat → Option (Slot τ)} {L : List Nat}
    (hc : FreeChain st tl L) (hb : ∀ b ∈ L, b < first) (hcs : 0 < cs) :
    FreeChain (writeChunk ndx first cs tl st) (some first) (List.range' first cs ++ L) := by
  have hbase : FreeChain (writeChunk ndx first cs tl st) tl L :=
    freeChain_congr hc
      (fun b hb' => writeChunk_outside ndx first cs tl st b (by have := hb b hb'; omega))
  have aux : ∀ d, 0 < d → d ≤ cs →
      FreeChain (writeChunk ndx first cs tl st) (some (first + (cs - d)))
        (List.range' (first + (cs - d)) d ++ L) := by
    intro d
    induction d with
    | zero => intro h _; exact absurd h (by omega)
    | succ d ih =>
      intro _ hd
      by_cases hd0 : d = 0
      · subst hd0
        have ha := writeChunk_inside ndx first cs tl st (first + (cs - 1))
          (by omega) (by omega)
        rw [if_neg (by omega)] at ha
        have hlist : List.range' (first + (cs - 1)) 1 ++ L = (first + (cs - 1)) :: L := by
          simp
        rw [hlist]
        exact FreeChain.cons ha rfl hbase
      · have hstep := ih (by omega) (by omega)
        have ha := writeChunk_inside ndx first cs tl st (first + (cs - (d + 1)))
          (by omega) (by omega)
        rw [if_pos (by omega)] at ha
        have harith : first + (cs - (d + 1)) + 1 = first + (cs - d) := by omega
        rw [harith] at ha
        rw [List.range'_succ, harith]
        exact FreeChain.cons ha rfl hstep
  have := aux cs hcs (Nat.le_refl cs)
  simpa using this

/-! ## Lemmas: invariant preservation for the arena operations -/

lemma addMemChunk_store (P : ArenaParams) (s : ArenaState τ) :
    (addMemChunk P s).2.store
      = writeChunk s.ndx s.nextAddr P.chunk_size s.nextFree s.store := rfl

lemma addMemChunk_eq (P : ArenaParams) (s : ArenaState τ) :
    (addMemChunk P s).2.chunks = s.chunks ++ [s.nextAddr] ∧
    (addMemChunk P s).2.nextFree = some s.nextAddr ∧
    (addMemChunk P s).2.maxLength = P.chunk_size * (s.chunks.length + 1) ∧
    (addMemChunk P s).2.freeSlots = s.freeSlots + P.chunk_size ∧
    (addMemChunk P s).2.nextAddr = s.nextAddr + P.chunk_size := by
  refine ⟨rfl, rfl, ?_, rfl, rfl⟩
  show P.chunk_size * (s.chunks ++ [s.nextAddr]).length = _
  simp

lemma arenaInv_addMemChunk {P : ArenaParams} {s : ArenaState τ}
    (h : ArenaInv P s) : ArenaInv P (addMemChunk P s).2 := by
  obtain ⟨L, U, hc, hU, hUc, hnd, hfree, hlen, hchunks, hbound⟩ := h
  obtain ⟨he1, he2, he3, he4, he5⟩ := addMemChunk_eq P s
  refine ⟨List.range' s.nextAddr P.chunk_size ++ L, U, ?_, ?_, ?_, ?_, ?_, ?_, ?_, ?_⟩
  · rw [addMemChunk_store, he2]
    exact freeChain_writeChunk hc
      (fun b hb => by
        obtain ⟨sl, hsl, _⟩ := freeChain_free hc b hb
        exact hbound b (by simp [hsl]))
      P.chunk_pos
  · intro a ha
    obtain ⟨sl, hsl, hin⟩ := hU a ha
    refine ⟨sl, ?_, hin⟩
    rw [addMemChunk_store]
    rw [writeChunk_outside _ _ _ _ _ a (by have := hbound a (by simp [hsl]); omega)]
    exact hsl
  · intro a sl hsl hin
    rw [addMemChunk_store] at hsl
    by_cases hrange : s.nextAddr ≤ a ∧ a < s.nextAddr + P.chunk_size
    · rw [writeChunk_inside _ _ _ _ _ a hrange.1 hrange.2] at hsl
      cases hsl
      simp at hin
    · rw [writeChunk_outside _ _ _ _ _ a hrange] at hsl
      exact hUc a sl hsl hin
  · rw [List.append_assoc, List.nodup_append]
    refine ⟨List.nodup_range' _ _, hnd, ?_⟩
    intro a ha ha'
    have h1 : s.nextAddr ≤ a := (List.mem_range'_1.mp ha).1
    have h2 : a < s.nextAddr := by
      rcases List.mem_append.mp ha' with hL | hU'
      · obtain ⟨sl, hsl, _⟩ := freeChain_free hc a hL
        exact hbound a (by simp [hsl])
      · obtain ⟨sl, hsl, _⟩ := hU a hU'
        exact hbound a (by simp [hsl])
    omega
  · rw [he4, hfree]
    simp [Nat.add_comm]
  · rw [he3, List.length_append, List.length_range', Nat.mul_add, Nat.mul_one, ← hchunks,
      hlen]
    omega
  · rw [he3, he1]
    simp
  · intro a ha
    rw [addMemChunk_store] at ha
    rw [he5]
    by_cases hrange : s.nextAddr ≤ a ∧ a < s.nextAddr + P.chunk_size
    · omega
    · rw [writeChunk_outside _ _ _ _ _ a hrange] at ha
      have := hbound a ha
      omega

lemma setSlot_same (st : Nat → Option (Slot τ)) (a : Nat) (sl : Slot τ) :
    setSlot st a sl a = some sl := by
  simp [setSlot]

lemma setSlot_other (st : Nat → Option (Slot τ)) (a : Nat) (sl : Slot τ)
    {b : Nat} (hb : b ≠ a) : setSlot st a sl b = st b := by
  simp [setSlot, hb]

lemma arenaInv_allocPre {P : ArenaParams} {s : ArenaState τ}
    (h : ArenaInv P s) : ArenaInv P (allocPre P s) := by
  unfold allocPre
  split
  · split
    · exact h
    · exact h
  · split
    · exact arenaInv_addMemChunk h
    · exact h

lemma allocPre_store_pres {P : ArenaParams} {s : ArenaState τ}
    (h : ArenaInv P s) {b : Nat} {sl : Slot τ} (hb : s.store b = some sl) :
    (allocPre P s).store b = some sl := by
  obtain ⟨L, U, hc, hU, hUc, hnd, hfree, hlen, hchunks, hbound⟩ := h
  have hlt : b < s.nextAddr := hbound b (by simp [hb])
  unfold allocPre
  split
  · split
    · exact hb
    · exact hb
  · split
    · rw [addMemChunk_store]
      rw [writeChunk_outside _ _ _ _ _ b (by omega)]
      exact hb
    · exact hb

lemma allocPre_ends_pres {P : ArenaParams} {s : ArenaState τ} :
    (allocPre P s).nextAddr = s.nextAddr ∨
      s.nextAddr ≤ (allocPre P s).nextAddr := by
  right
  unfold allocPre
  split
  · split <;> exact Nat.le_refl _
  · split
    · rw [(addMemChunk_eq P s).2.2.2.2]
      omega
    · exact Nat.le_refl _

lemma arenaInv_head {P : ArenaParams} {s : ArenaState τ} {a : Nat}
    (h : ArenaInv P s) (ha : s.nextFree = some a) :
    ∃ sl, s.store a = some sl ∧ sl.inUse = false := by
  obtain ⟨L, U, hc, _, _, _, _, _, _, _⟩ := h
  rw [ha] at hc
  cases hc with
  | cons hsl hu _ => exact ⟨_, hsl, hu⟩

/-- Invariant preservation for `allocate`, with the facts queue
    proofs need about a successful allocation: the returned slot is
    freshly IN_USE holding `v`, and every previously IN_USE slot is
    untouched and distinct from it. -/
lemma allocate_cases {P : ArenaParams} {s : ArenaState τ} {v : τ}
    (h : ArenaInv P s) :
    ArenaInv P (allocate P s v).2 ∧
    (∀ n, (allocate P s v).1 = some n →
      (∃ idx, (allocate P s v).2.store n =
        some { next := none, inUse := true, index := idx, payload := some v }) ∧
      (∀ b sl, s.store b = some sl → sl.inUse = true →
        b ≠ n ∧ (allocate P s v).2.store b = s.store b)) := by
  have h1 : ArenaInv P (allocPre P s) := arenaInv_allocPre h
  show ArenaInv P (allocate P s v).2 ∧ _
  unfold allocate
  cases hnf : (allocPre P s).nextFree with
  | none =>
    refine ⟨by simpa [hnf] using h1, ?_⟩
    intro n hn
    simp [hnf] at hn
  | some a =>
    obtain ⟨sl, hsl, hfree0⟩ := arenaInv_head h1 hnf
    obtain ⟨L, U, hc, hU, hUc, hnd, hfree, hlen, hchunks, hbound⟩ := h1
    rw [hnf] at hc
    cases hc with
    | @cons _ L' sl2 hsl2 hu2 hc' =>
      have hsleq : sl2 = sl := by
        rw [hsl] at hsl2
        exact (Option.some_inj.mp hsl2).symm
      subst hsleq
      have hndL : (a :: (L' ++ U)).Nodup := by simpa using hnd
      have hanotin : a ∉ L' ++ U := (List.nodup_cons.mp hndL).1
      constructor
      · -- the invariant for the post-allocation state
        refine ⟨L', a :: U, ?_, ?_, ?_, ?_, ?_, ?_, ?_, ?_⟩
        · simp only [hnf, hsl]
          refine freeChain_congr hc' ?_
          intro b hb
          exact setSlot_other _ _ _ (fun hba => hanotin (by simp [hba ▸ hb]))
        · intro b hb
          simp only [hnf, hsl]
          rcases List.mem_cons.mp hb with rfl | hb
          · exact ⟨_, setSlot_same _ _ _, rfl⟩
          · obtain ⟨slb, hslb, hinb⟩ := hU b hb
            refine ⟨slb, ?_, hinb⟩
            rw [setSlot_other _ _ _ (fun hba => hanotin (by simp [hba ▸ hb]))]
            exact hslb
        · intro b slb hslb hinb
          simp only [hnf, hsl] at hslb
          by_cases hba : b = a
          · exact hba ▸ List.mem_cons_self a U
          · rw [setSlot_other _ _ _ hba] at hslb
            exact List.mem_cons_of_mem a (hUc b slb hslb hinb)
        · have : (a :: (L' ++ U)).Nodup := hndL
          have hperm : (a :: (L' ++ U)).Perm (L' ++ a :: U) := List.perm_middle.symm
          exact hperm.nodup this
        · simp only [hnf, hsl]
          have : (allocPre P s).freeSlots = L'.length + 1 := by
            rw [hfree]; simp
          omega
        · simp only [hnf, hsl]
          rw [hlen]
          simp
          omega
        · simp only [hnf, hsl]
          exact hchunks
        · intro b hb
          simp only [hnf, hsl] at hb ⊢
          by_cases hba : b = a
          · subst hba
            exact hbound b (by simp [hsl])
          · rw [setSlot_other _ _ _ hba] at hb
            exact hbound b hb
      · -- facts about the returned address
        intro n hn
        simp only [hnf, hsl] at hn
        have hna : n = a := by
          simpa using hn.symm
        subst hna
        constructor
        · refine ⟨Slot.index sl2, ?_⟩
          simp only [hnf, hsl]
          exact setSlot_same _ _ _
        · intro b slb hslb hinb
          have hpres := allocPre_store_pres h hslb
          have hbn : b ≠ n := by
            intro hbn
            rw [hbn, hsl] at hpres
            cases hpres
            rw [hfree0] at hinb
            cases hinb
          refine ⟨hbn, ?_⟩
          simp only [hnf, hsl]
          rw [setSlot_other _ _ _ hbn, hpres, hslb]

lemma allocate_some_of_thr0 {P : ArenaParams} {s : ArenaState τ} {v : τ}
    (h : ArenaInv P s) (hthr : P.alloc_threshold = 0) :
    ∃ n, (allocate P s v).1 = some n := by
  have h1 : ArenaInv P (allocPre P s) := arenaInv_allocPre h
  have hnf : ∃ a, (allocPre P s).nextFree = some a := by
    unfold allocPre
    rw [hthr]
    simp only [Nat.lt_irrefl, if_false]
    split
    · exact ⟨s.nextAddr, (addMemChunk_eq P s).2.1⟩
    · rcases hx : s.nextFree with _ | a
      · simp_all
      · exact ⟨a, rfl⟩
  obtain ⟨a, ha⟩ := hnf
  obtain ⟨sl, hsl, _⟩ := arenaInv_head h1 ha
  refine ⟨a, ?_⟩
  unfold allocate
  simp only [ha, hsl]

lemma freeChain_set_payload {st : Nat → Option (Slot τ)} {h : Option Nat}
    {L : List Nat} {a : Nat} {sl : Slot τ} (pl : Option τ)
    (hc : FreeChain st h L) (hsl : st a = some sl) :
    FreeChain (setSlot st a { sl with payload := pl }) h L := by
  induction hc with
  | nil => exact FreeChain.nil
  | @cons b L' slb hb hu _ ih =>
    by_cases hba : b = a
    · subst hba
      have : slb = sl := by rw [hb] at hsl; exact Option.some_inj.mp hsl
      subst this
      exact FreeChain.cons (setSlot_same _ _ _) hu ih
    · exact FreeChain.cons (by rw [setSlot_other _ _ _ hba]; exact hb) hu ih

lemma setSlot_setSlot (st : Nat → Option (Slot τ)) (a : Nat) (x y : Slot τ) :
    setSlot (setSlot st a x) a y = setSlot st a y := by
  funext b
  by_cases hba : b = a
  · subst hba; simp [setSlot]
  · simp [setSlot, hba]

/-- State facts about a successful `deallocate` of an IN_USE slot. -/
lemma deallocate_of_inuse {s : ArenaState τ} {a : Nat} {sl : Slot τ}
    (hsa : s.store a = some sl) (hin : sl.inUse = true) :
    (deallocate s (some a)).1 = Result.eSuccess ∧
    (deallocate s (some a)).2.store a =
      some { sl with payload := none, next := s.nextFree, inUse := false } ∧
    (∀ b, b ≠ a → (deallocate s (some a)).2.store b = s.store b) ∧
    (deallocate s (some a)).2.nextFree = some a ∧
    (deallocate s (some a)).2.freeSlots = s.freeSlots + 1 ∧
    (deallocate s (some a)).2.maxLength = s.maxLength ∧
    (deallocate s (some a)).2.dtorCalls = s.dtorCalls ++ [a] := by
  have hnot : ¬(sl.inUse = false) := by simp [hin]
  refine ⟨?_, ?_, ?_, ?_, ?_, ?_, ?_⟩ <;>
    simp only [deallocate, hsa, if_neg hnot]
  · exact setSlot_same _ _ _
  · intro b hb
    rw [setSlot_other _ _ _ hb, setSlot_other _ _ _ hb]

/-- State facts about `deallocate` on an already-FREE slot: the
    destructor has run (trace extended), the result is `eDoubleFree`,
    and free-head, `_free_slots` and `_max_length` are untouched. -/
lemma deallocate_double {s : ArenaState τ} {a : Nat} {sl : Slot τ}
    (hsa : s.store a = some sl) (hfr : sl.inUse = false) :
    (deallocate s (some a)).1 = Result.eDoubleFree ∧
    (deallocate s (some a)).2.nextFree = s.nextFree ∧
    (deallocate s (some a)).2.freeSlots = s.freeSlots ∧
    (deallocate s (some a)).2.maxLength = s.maxLength ∧
    (deallocate s (some a)).2.dtorCalls = s.dtorCalls ++ [a] := by
  refine ⟨?_, ?_, ?_, ?_, ?_⟩ <;>
    simp only [deallocate, hsa, if_pos hfr]

lemma arenaInv_deallocate {P : ArenaParams} {s : ArenaState τ} {p : Option Nat}
    (h : ArenaInv P s) : ArenaInv P (deallocate s p).2 := by
  obtain ⟨L, U, hc, hU, hUc, hnd, hfree, hlen, hchunks, hbound⟩ := h
  cases p with
  | none => exact ⟨L, U, hc, hU, hUc, hnd, hfree, hlen, hchunks, hbound⟩
  | some a =>
    cases hsa : s.store a with
    | none =>
      simp only [deallocate, hsa]
      exact ⟨L, U, hc, hU, hUc, hnd, hfree, hlen, hchunks, hbound⟩
    | some sl =>
      by_cases hin : sl.inUse = false
      · -- double-free branch: destructor only
        simp only [deallocate, hsa, if_pos hin]
        unfold ArenaInv
        dsimp only
        refine ⟨L, U, ?_, ?_, ?_, hnd, hfree, hlen, hchunks, ?_⟩
        · exact freeChain_set_payload none hc hsa
        · intro b hb
          obtain ⟨slb, hslb, hinb⟩ := hU b hb
          have hba : b ≠ a := by
            intro hba
            rw [hba, hsa] at hslb
            cases hslb
            rw [hin] at hinb
            cases hinb
          exact ⟨slb, by rw [setSlot_other _ _ _ hba]; exact hslb, hinb⟩
        · intro b slb hslb hinb
          by_cases hba : b = a
          · subst hba
            rw [setSlot_same] at hslb
            cases hslb
            simp only [hin] at hinb
            cases hinb
          · rw [setSlot_other _ _ _ hba] at hslb
            exact hUc b slb hslb hinb
        · intro b hb
          by_cases hba : b = a
          · subst hba
            exact hbound b (by simp [hsa])
          · rw [setSlot_other _ _ _ hba] at hb
            exact hbound b hb
      · -- success branch: push the slot on the free list
        have hin' : sl.inUse = true := by
          cases hx : sl.inUse
          · exact absurd hx hin
          · rfl
        have haU : a ∈ U := hUc a sl hsa hin'
        have hndL : L.Nodup := (List.nodup_append.mp hnd).1
        have hndU : U.Nodup := (List.nodup_append.mp hnd).2.1
        have hdisj : L.Disjoint U := (List.nodup_append.mp hnd).2.2
        have haL : a ∉ L := fun haL => hdisj haL haU
        simp only [deallocate, hsa, if_neg hin, setSlot_setSlot]
        unfold ArenaInv
        dsimp only
        refine ⟨a :: L, U.erase a, ?_, ?_, ?_, ?_, ?_, ?_, hchunks, ?_⟩
        · refine FreeChain.cons (setSlot_same _ _ _) rfl ?_
          show FreeChain _ s.nextFree L
          refine freeChain_congr hc ?_
          intro b hb
          exact setSlot_other _ _ _ (fun hba => haL (hba ▸ hb))
        · intro b hb
          have hb' := (List.Nodup.mem_erase_iff hndU).mp hb
          obtain ⟨slb, hslb, hinb⟩ := hU b hb'.2
          exact ⟨slb, by rw [setSlot_other _ _ _ hb'.1]; exact hslb, hinb⟩
        · intro b slb hslb hinb
          by_cases hba : b = a
          · subst hba
            rw [setSlot_same] at hslb
            cases hslb
            cases hinb
          · rw [setSlot_other _ _ _ hba] at hslb
            exact (List.Nodup.mem_erase_iff hndU).mpr ⟨hba, hUc b slb hslb hinb⟩
        · have hsub : (L ++ U.erase a).Sublist (L ++ U) :=
            List.Sublist.append_left (List.erase_sublist a U) L
          have hnd' : (L ++ U.erase a).Nodup := List.Nodup.sublist hsub hnd
          refine List.nodup_cons.mpr ⟨?_, hnd'⟩
          intro hmem
          rcases List.mem_append.mp hmem with hx | hx
          · exact haL hx
          · exact absurd ((List.Nodup.mem_erase_iff hndU).mp hx).1 (by simp)
        · simp [hfree]
        · have herase : (U.erase a).length = U.length - 1 :=
            List.length_erase_of_mem haU
          have hUpos : 0 < U.length := List.length_pos.mpr (by
            intro hU0
            rw [hU0] at haU
            cases haU)
          simp only [List.length_cons, herase]
          omega
        · intro b hb
          by_cases hba : b = a
          · subst hba
            exact hbound b (by simp [hsa])
          · rw [setSlot_other _ _ _ hba] at hb
            exact hbound b hb

lemma clearArena_proj (P : ArenaParams) (s : ArenaState τ) :
    (clearArena P s).store = (fun _ => none) ∧
    (clearArena P s).chunks = [] ∧
    (clearArena P s).nextFree = none ∧
    (clearArena P s).maxLength = 0 ∧
    (clearArena P s).freeSlots = 0 := ⟨rfl, rfl, rfl, rfl, rfl⟩

lemma arenaInv_clear {P : ArenaParams} (s : ArenaState τ) :
    ArenaInv P (clearArena P s) := by
  obtain ⟨h1, h2, h3, h4, h5⟩ := clearArena_proj P s
  unfold ArenaInv
  rw [h1, h2, h3, h4, h5]
  refine ⟨[], [], FreeChain.nil, by simp, ?_, by simp, rfl, rfl, by simp, ?_⟩
  · intro b slb hslb _
    cases hslb
  · intro b hb
    exact absurd rfl hb

lemma arenaInv_worker {P : ArenaParams} {s : ArenaState τ}
    (h : ArenaInv P s) : ArenaInv P (workerStep P s) := by
  by_cases hsem : s.sem
  · by_cases hgrow : s.maxLength < P.size_limit ∨ P.size_limit = 0
    · have : workerStep P s = (addMemChunk P { s with sem := false }).2 := by
        simp [workerStep, hsem, hgrow]
      rw [this]
      exact arenaInv_addMemChunk h
    · have : workerStep P s = { s with sem := false } := by
        simp [workerStep, hsem, hgrow]
      rw [this]
      exact h
  · have : workerStep P s = s := by simp [workerStep, hsem]
    rw [this]
    exact h

lemma arenaInv_initState (P : ArenaParams) :
    ArenaInv P (initState (τ := τ)) := by
  unfold ArenaInv initState
  dsimp only
  refine ⟨[], [], FreeChain.nil, by simp, ?_, by simp, rfl, rfl, by simp, ?_⟩
  · intro b slb hslb _
    cases hslb
  · intro b hb
    exact absurd rfl hb

lemma arenaInv_ctorLoop {P : ArenaParams} (fuel : Nat) {s : ArenaState τ}
    (h : ArenaInv P s) : ArenaInv P (ctorLoop P fuel s) := by
  induction fuel generalizing s with
  | zero => exact h
  | succ fuel ih =>
    unfold ctorLoop
    split
    · exact ih (arenaInv_addMemChunk h)
    · exact h

lemma arenaInv_mkArena (P : ArenaParams) : ArenaInv P (mkArena (τ := τ) P) :=
  arenaInv_ctorLoop P.initial_size (arenaInv_initState P)

lemma arenaInv_applyOp {P : ArenaParams} {s : ArenaState τ} {op : ArenaOp τ}
    (h : ArenaInv P s) : ArenaInv P (applyOp P s op) := by
  cases op with
  | alloc v => exact (allocate_cases h).1
  | dealloc p => exact arenaInv_deallocate h
  | worker => exact arenaInv_worker h
  | clearOp => exact arenaInv_clear s

lemma arenaInv_runOps {P : ArenaParams} {s : ArenaState τ}
    (h : ArenaInv P s) (ops : List (ArenaOp τ)) : ArenaInv P (runOps P s ops) := by
  induction ops generalizing s with
  | nil => exact h
  | cons op ops ih => exact ih (arenaInv_applyOp h)

lemma arenaInv_reachable {P : ArenaParams} {s : ArenaState τ}
    (h : ArenaReachable P s) : ArenaInv P s := by
  obtain ⟨ops, rfl⟩ := h
  exact arenaInv_runOps (arenaInv_mkArena P) ops

lemma allocPre_of_nextFree_some {P : ArenaParams} {s : ArenaState τ} {a : Nat}
    (h : s.nextFree = some a) :
    (allocPre P s).nextFree = s.nextFree ∧ (allocPre P s).store = s.store := by
  unfold allocPre
  split
  · split
    · exact ⟨rfl, rfl⟩
    · exact ⟨rfl, rfl⟩
  · rw [if_neg (by simp [h])]
    exact ⟨rfl, rfl⟩

/-! ## Claim theorems about the arena allocator -/

/-- The arena state after two allocations from an arena built with
    `chunk_size=2, initial_size=2, size_limit=2, alloc_threshold=0`
    (spec scenario 3): both slots of the single chunk are in use and
    the free list is empty. -/
def c1state : ArenaState Nat :=
  (allocate P221 (allocate P221 (mkArena P221) 10).2 20).2

/-- C1, failing input (code_bug): with
    `chunk_size=2, initial_size=2, size_limit=2, alloc_threshold=0`,
    after two allocations `max_length` has reached `size_limit` and
    the free list is empty, yet the third `allocate` does NOT return
    null: the synchronous growth path of
    `arena_allocator::allocate` calls `unsafe_add_mem_chuck()`
    without any `size_limit` test, so the arena gains a second chunk
    (`max_length` becomes 4 > `size_limit` = 2) and the call returns
    a non-null pointer — contradicting the claim, the spec
    ("allocate when size_limit is reached returns null") and the
    function's own documentation comment. -/
theorem arena_size_limit_sync_growth_bug :
    c1state.maxLength = P221.size_limit ∧
    c1state.nextFree = none ∧
    (allocate P221 c1state 30).1 = some 2 ∧
    (allocate P221 c1state 30).2.maxLength = 4 ∧
    (allocate P221 c1state 30).2.chunks.length = 2 := by
  refine ⟨?_, ?_, ?_, ?_, ?_⟩ <;> decide

/-- C3: for any arena state and any slot `a` currently IN_USE (i.e. a
    payload pointer handed out by `allocate`), `deallocate` succeeds
    and an immediately following `allocate` returns the same pointer:
    the free list is LIFO and the freed slot became its head. -/
theorem dealloc_alloc_roundtrip {P : ArenaParams} {τ : Type}
    {s : ArenaState τ} {a : Nat} {sl : Slot τ}
    (hsa : s.store a = some sl) (hin : sl.inUse = true) (v : τ) :
    (deallocate s (some a)).1 = Result.eSuccess ∧
    (allocate P (deallocate s (some a)).2 v).1 = some a := by
  obtain ⟨hres, hstore, _, hnf, _, _, _⟩ := deallocate_of_inuse hsa hin
  refine ⟨hres, ?_⟩
  obtain ⟨hp1, hp2⟩ := allocPre_of_nextFree_some (P := P) hnf
  unfold allocate
  dsimp only
  rw [hp1, hnf, hp2]
  dsimp only
  rw [hstore]

/-- Arena holding one allocated `Nat` (from the unbounded one-slot
    configuration `P110`), used by witnesses. -/
def c3state : ArenaState Nat := (allocate P110 (mkArena P110) 5).2

/-- The slot record of `c3state` at address 0. -/
def c3slot : Slot Nat := { next := none, inUse := true, index := 0, payload := some 5 }

theorem dealloc_alloc_roundtrip_witness :
    (deallocate c3state (some 0)).1 = Result.eSuccess ∧
    (allocate P110 (deallocate c3state (some 0)).2 7).1 = some 0 :=
  @dealloc_alloc_roundtrip P110 Nat c3state 0 c3slot (by decide) (by decide) 7

/-- C4: `deallocate(nullptr)` returns `eNullPointer`; and for an
    IN_USE slot `a`, deallocating twice returns `eSuccess` then
    `eDoubleFree`. -/
theorem deallocate_null_and_double_free {τ : Type}
    {s : ArenaState τ} {a : Nat} {sl : Slot τ}
    (hsa : s.store a = some sl) (hin : sl.inUse = true) :
    (deallocate s (none : Option Nat)).1 = Result.eNullPointer ∧
    (deallocate s (some a)).1 = Result.eSuccess ∧
    (deallocate (deallocate s (some a)).2 (some a)).1 = Result.eDoubleFree := by
  obtain ⟨hres, hstore, _, _, _, _, _⟩ := deallocate_of_inuse hsa hin
  exact ⟨rfl, hres, (deallocate_double hstore rfl).1⟩

theorem deallocate_null_and_double_free_witness :
    (deallocate c3state (none : Option Nat)).1 = Result.eNullPointer ∧
    (deallocate c3state (some 0)).1 = Result.eSuccess ∧
    (deallocate (deallocate c3state (some 0)).2 (some 0)).1 = Result.eDoubleFree :=
  @deallocate_null_and_double_free Nat c3state 0 c3slot (by decide) (by decide)

/-- C9: for every non-null pointer into the arena, `deallocate` runs
    the payload destructor (trace extended by the slot) before the
    double-free test; a call that returns `eDoubleFree` has therefore
    already invoked the destructor, and on that branch free-head,
    `_free_slots` and `_max_length` are unchanged — no slot is pushed
    onto the free list. -/
theorem deallocate_dtor_before_check {τ : Type}
    {s : ArenaState τ} {a : Nat} {sl : Slot τ} (hsa : s.store a = some sl) :
    (deallocate s (some a)).2.dtorCalls = s.dtorCalls ++ [a] ∧
    (sl.inUse = false →
      (deallocate s (some a)).1 = Result.eDoubleFree ∧
      (deallocate s (some a)).2.nextFree = s.nextFree ∧
      (deallocate s (some a)).2.freeSlots = s.freeSlots ∧
      (deallocate s (some a)).2.maxLength = s.maxLength) := by
  constructor
  · by_cases hin : sl.inUse = false
    · exact (deallocate_double hsa hin).2.2.2.2
    · have hin' : sl.inUse = true := by
        cases hx : sl.inUse
        · exact absurd hx hin
        · rfl
      exact (deallocate_of_inuse hsa hin').2.2.2.2.2.2
  · intro hfr
    obtain ⟨h1, h2, h3, h4, _⟩ := deallocate_double hsa hfr
    exact ⟨h1, h2, h3, h4⟩

/-- The arena `c3state` after freeing its single allocation: slot 0
    is FREE again. -/
def c9state : ArenaState Nat := (deallocate c3state (some 0)).2

/-- The slot record of `c9state` at address 0. -/
def c9slot : Slot Nat := { next := none, inUse := false, index := 0, payload := none }

theorem deallocate_dtor_before_check_witness :
    (deallocate c9state (some 0)).2.dtorCalls = c9state.dtorCalls ++ [0] ∧
    (c9slot.inUse = false →
      (deallocate c9state (some 0)).1 = Result.eDoubleFree ∧
      (deallocate c9state (some 0)).2.nextFree = c9state.nextFree ∧
      (deallocate c9state (some 0)).2.freeSlots = c9state.freeSlots ∧
      (deallocate c9state (some 0)).2.maxLength = c9state.maxLength) :=
  @deallocate_dtor_before_check Nat c9state 0 c9slot (by decide)

/-- C5: in every state reachable from a freshly constructed arena by
    `allocate`, `deallocate`, prefetch-worker chunk extension and
    `clear`, the counters satisfy `length + free_slots == max_length`
    and `max_length == chunk_size * number_of_chunks`. -/
theorem slot_accounting_invariant {P : ArenaParams} {τ : Type}
    {s : ArenaState τ} (h : ArenaReachable P s) :
    arenaLength s + s.freeSlots = s.maxLength ∧
    s.maxLength = P.chunk_size * s.chunks.length := by
  obtain ⟨L, U, _, _, _, _, hfree, hlen, hchunks, _⟩ := arenaInv_reachable h
  refine ⟨?_, hchunks⟩
  unfold arenaLength
  omega

/-- A concrete reachable state: one allocation, one double free, one
    worker wake-up on `P221`. -/
def c5state : ArenaState Nat :=
  runOps P221 (mkArena P221)
    [ArenaOp.alloc 3, ArenaOp.dealloc (some 0), ArenaOp.dealloc (some 0), ArenaOp.worker]

theorem slot_accounting_invariant_witness :
    arenaLength c5state + c5state.freeSlots = c5state.maxLength ∧
    c5state.maxLength = P221.chunk_size * c5state.chunks.length :=
  slot_accounting_invariant
    ⟨[ArenaOp.alloc 3, ArenaOp.dealloc (some 0), ArenaOp.dealloc (some 0), ArenaOp.worker],
     rfl⟩

/-! ## Lemmas: the queue chain -/

lemma nodeChain_congr {st st' : Nat → Option (Slot (Node τ))} {h : Option Nat}
    {addrs : List Nat} {vs : List τ}
    (hc : NodeChain st h addrs vs) (heq : ∀ b ∈ addrs, st' b = st b) :
    NodeChain st' h addrs vs := by
  induction hc with
  | nil => exact NodeChain.nil
  | @cons a addrs' vs' sl nd v hsl hin hpl hdv _ ih =>
    exact NodeChain.cons (by rw [heq a (by simp)]; exact hsl) hin hpl hdv
      (ih fun b hb => heq b (by simp [hb]))

lemma nodeChain_inuse {st : Nat → Option (Slot (Node τ))} {h : Option Nat}
    {addrs : List Nat} {vs : List τ} (hc : NodeChain st h addrs vs) :
    ∀ a ∈ addrs, ∃ sl, st a = some sl ∧ sl.inUse = true := by
  induction hc with
  | nil => simp
  | @cons a addrs' vs' sl nd v hsl hin _ _ _ ih =>
    intro b hb
    rcases List.mem_cons.mp hb with rfl | hb
    · exact ⟨sl, hsl, hin⟩
    · exact ih b hb

lemma nodeChain_nil_inv {st : Nat → Option (Slot (Node τ))} {addrs : List Nat}
    {vs : List τ} (hc : NodeChain st none addrs vs) : addrs = [] ∧ vs = [] := by
  cases hc
  exact ⟨rfl, rfl⟩

lemma nodeChain_empty_inv {st : Nat → Option (Slot (Node τ))} {h : Option Nat}
    {vs : List τ} (hc : NodeChain st h [] vs) : h = none ∧ vs = [] := by
  cases hc
  exact ⟨rfl, rfl⟩

lemma nodeChain_last {st : Nat → Option (Slot (Node τ))} {h : Option Nat}
    {addrs : List Nat} {vs : List τ} (hc : NodeChain st h addrs vs) :
    ∀ t, addrs.getLast? = some t →
      ∃ sl nd, st t = some sl ∧ sl.inUse = true ∧ sl.payload = some nd ∧
        nd.qnext = none := by
  induction hc with
  | nil => intro t ht; simp at ht
  | @cons a addrs' vs' sl nd v hsl hin hpl hdv hc' ih =>
    intro t ht
    cases addrs' with
    | nil =>
      obtain ⟨hq, _⟩ := nodeChain_empty_inv hc'
      simp at ht
      subst ht
      exact ⟨sl, nd, hsl, hin, hpl, hq⟩
    | cons b rest =>
      rw [List.getLast?_cons_cons] at ht
      exact ih t ht

lemma nodeChain_append {st : Nat → Option (Slot (Node τ))} {h : Option Nat}
    {addrs : List Nat} {vs : List τ} {t n : Nat} {sl : Slot (Node τ)}
    {nd : Node τ} {v : τ} {idx : Nat}
    (hc : NodeChain st h addrs vs) (hnd : addrs.Nodup)
    (hlast : addrs.getLast? = some t)
    (hsl : st t = some sl) (hpl : sl.payload = some nd)
    (hn : n ∉ addrs)
    (hstn : st n = some { next := none, inUse := true, index := idx,
                          payload := some { qnext := none, data := v } }) :
    NodeChain (setSlot st t { sl with payload := some { nd with qnext := some n } })
      h (addrs ++ [n]) (vs ++ [v]) := by
  revert hnd hlast hn
  induction hc with
  | nil =>
    intro _ hlast _
    simp at hlast
  | @cons a addrs' vs' sl_a nd_a v_a hsl_a hin_a hpl_a hdv_a hc' ih =>
    intro hnd hlast hn
    cases addrs' with
    | nil =>
      obtain ⟨_, hvs⟩ := nodeChain_empty_inv hc'
      subst hvs
      simp only [List.getLast?_singleton] at hlast
      have hta : t = a := by
        cases hlast
        rfl
      subst hta
      have hseq : sl_a = sl := by
        rw [hsl_a] at hsl
        exact Option.some_inj.mp hsl
      subst hseq
      have hneq : nd_a = nd := by
        rw [hpl_a] at hpl
        exact Option.some_inj.mp hpl
      subst hneq
      have hna : n ≠ t := fun hna => hn (by simp [hna])
      show NodeChain _ (some t) (t :: [n]) (v_a :: [v])
      refine NodeChain.cons (setSlot_same _ _ _) hin_a rfl hdv_a ?_
      show NodeChain _ (some n) [n] [v]
      refine NodeChain.cons (by rw [setSlot_other _ _ _ hna]; exact hstn)
        rfl rfl rfl ?_
      exact NodeChain.nil
    | cons b rest =>
      rw [List.getLast?_cons_cons] at hlast
      have ht_mem : t ∈ b :: rest := List.mem_of_getLast?_eq_some hlast
      have hanotin : a ∉ b :: rest := (List.nodup_cons.mp hnd).1
      have hat : a ≠ t := fun hat => hanotin (hat ▸ ht_mem)
      have := ih (List.nodup_cons.mp hnd).2 hlast (fun hx => hn (by simp [hx]))
      refine NodeChain.cons ?_ hin_a hpl_a hdv_a this
      rw [setSlot_other _ _ _ hat]
      exact hsl_a

/-- The arena invariant survives a payload-only update of an IN_USE
    slot (this is what a queue-link write to a live node is, seen
    from the arena). -/
lemma arenaInv_set_payload {P : ArenaParams} {τ' : Type} {s : ArenaState τ'}
    {t : Nat} {sl : Slot τ'} (h : ArenaInv P s)
    (hsl : s.store t = some sl) (hin : sl.inUse = true) (pl : Option τ') :
    ArenaInv P { s with store := setSlot s.store t { sl with payload := pl } } := by
  obtain ⟨L, U, hc, hU, hUc, hnd, hfree, hlen, hchunks, hbound⟩ := h
  unfold ArenaInv
  dsimp only
  refine ⟨L, U, ?_, ?_, ?_, hnd, hfree, hlen, hchunks, ?_⟩
  · exact freeChain_set_payload pl hc hsl
  · intro b hb
    obtain ⟨slb, hslb, hinb⟩ := hU b hb
    by_cases hbt : b = t
    · subst hbt
      rw [hslb] at hsl
      cases Option.some_inj.mp hsl
      exact ⟨_, setSlot_same _ _ _, hinb⟩
    · exact ⟨slb, by rw [setSlot_other _ _ _ hbt]; exact hslb, hinb⟩
  · intro b slb hslb hinb
    by_cases hbt : b = t
    · subst hbt
      exact hUc b sl hsl hin
    · rw [setSlot_other _ _ _ hbt] at hslb
      exact hUc b slb hslb hinb
  · intro b hb
    by_cases hbt : b = t
    · subst hbt
      exact hbound b (by simp [hsl])
    · rw [setSlot_other _ _ _ hbt] at hb
      exact hbound b hb

/-! ## Lemmas: single-threaded queue steps -/

lemma nodeChain_cons_inv {st : Nat → Option (Slot (Node τ))} {h : Option Nat}
    {a : Nat} {addrs : List Nat} {vs : List τ}
    (hc : NodeChain st h (a :: addrs) vs) :
    h = some a ∧ ∃ sl nd vs2, st a = some sl ∧ sl.inUse = true ∧
      sl.payload = some nd ∧ vs = nd.data :: vs2 ∧
      NodeChain st nd.qnext addrs vs2 := by
  cases hc with
  | cons hsl hin hpl hdv hc2 =>
    exact ⟨rfl, _, _, _, hsl, hin, hpl, by rw [hdv], hc2⟩

lemma pushLF_step {P : ArenaParams} {s : QState τ} {vs : List τ}
    (hthr : P.alloc_threshold = 0) (h : QRep P s vs) (v : τ) (fuel : Nat) :
    (pushLF P (fuel + 1) s v).1 = some Result.eSuccess ∧
    QRep P (pushLF P (fuel + 1) s v).2 (vs ++ [v]) := by
  obtain ⟨addrs, hc, hnd, htail, hinv⟩ := h
  obtain ⟨n, hn⟩ :=
    allocate_some_of_thr0 (v := ({ qnext := none, data := v } : Node τ)) hinv hthr
  obtain ⟨hinv2, hfacts⟩ :=
    allocate_cases (v := ({ qnext := none, data := v } : Node τ)) (s := s.arena) hinv
  obtain ⟨⟨idx, hstn⟩, hpres⟩ := hfacts n hn
  have hc_ar : NodeChain (allocate P s.arena { qnext := none, data := v }).2.store
      s.head addrs vs := by
    refine nodeChain_congr hc ?_
    intro b hb
    obtain ⟨slb, hslb, hinb⟩ := nodeChain_inuse hc b hb
    exact (hpres b slb hslb hinb).2
  have hn_notin : n ∉ addrs := by
    intro hmem
    obtain ⟨slb, hslb, hinb⟩ := nodeChain_inuse hc n hmem
    exact (hpres n slb hslb hinb).1 rfl
  rcases hE : allocate P s.arena { qnext := none, data := v } with ⟨r, ar⟩
  rw [hE] at hn hstn hinv2 hc_ar
  dsimp only at hn hstn hinv2 hc_ar
  subst hn
  unfold pushLF
  rw [hE]
  dsimp only
  cases addrs with
  | nil =>
    obtain ⟨hh, hvs⟩ := nodeChain_empty_inv hc
    subst hvs
    have htail2 : s.tail = none := by simpa using htail
    unfold pushLoop
    dsimp only
    rw [htail2, hh]
    dsimp only
    rw [if_pos rfl]
    refine ⟨rfl, [n], ?_, by simp, by simp, hinv2⟩
    show NodeChain ar.store (some n) [n] [v]
    exact NodeChain.cons hstn rfl rfl rfl NodeChain.nil
  | cons a0 rest =>
    have hh : s.head = some a0 := (nodeChain_cons_inv hc).1
    rw [hh] at hc_ar
    rcases hgl : (a0 :: rest).getLast? with _ | t
    · simp [List.getLast?_eq_none_iff] at hgl
    have htail2 : s.tail = some t := by rw [htail, hgl]
    obtain ⟨sl_t, nd_t, hslt, hint, hplt, hqt⟩ := nodeChain_last hc_ar t hgl
    unfold pushLoop
    dsimp only
    rw [htail2, hh]
    dsimp only
    rw [hslt]
    dsimp only
    rw [hplt]
    dsimp only
    rw [if_neg (by simp [hqt])]
    refine ⟨rfl, (a0 :: rest) ++ [n], ?_, ?_, ?_, ?_⟩
    · dsimp only
      exact nodeChain_append hc_ar hnd hgl hslt hplt hn_notin hstn
    · rw [List.nodup_append]
      refine ⟨hnd, by simp, ?_⟩
      intro x hx hx2
      simp at hx2
      subst hx2
      exact hn_notin hx
    · show some n = ((a0 :: rest) ++ [n]).getLast?
      rw [List.getLast?_concat]
    · exact arenaInv_set_payload hinv2 hslt hint _

lemma popLF_step {P : ArenaParams} {s : QState τ} {v : τ} {vs : List τ}
    (h : DRep P s (v :: vs)) :
    (popLF s).1 = Result.eSuccess ∧ (popLF s).2.1 = some v ∧
    DRep P (popLF s).2.2 vs := by
  obtain ⟨addrs, hc, hnd, hinv⟩ := h
  cases addrs with
  | nil =>
    obtain ⟨_, hvs⟩ := nodeChain_empty_inv hc
    cases hvs
  | cons a rest =>
    obtain ⟨hh, sl, nd, vs2, hsl, hin, hpl, hvs, hc2⟩ := nodeChain_cons_inv hc
    have hv : nd.data = v := by
      cases hvs
      rfl
    have hvs2 : vs2 = vs := by
      cases hvs
      rfl
    subst hvs2
    have hanotin : a ∉ rest := (List.nodup_cons.mp hnd).1
    unfold popLF
    rw [hh]
    dsimp only
    rw [hsl]
    dsimp only
    rw [hpl]
    dsimp only
    have hst1 : ({ s.arena with store := setSlot s.arena.store a ({ sl with payload := some ({ nd with qnext := none }) }) } : ArenaState (Node τ)).store a = some ({ sl with payload := some ({ nd with qnext := none }) }) := setSlot_same _ _ _
    obtain ⟨hres, hsta, hother, _, _, _, _⟩ := deallocate_of_inuse hst1 hin
    refine ⟨hres, by rw [hv], rest, ?_, (List.nodup_cons.mp hnd).2, ?_⟩
    · refine nodeChain_congr hc2 ?_
      intro b hb
      have hba : b ≠ a := fun hba => hanotin (hba ▸ hb)
      rw [hother b hba]
      dsimp only
      rw [setSlot_other _ _ _ hba]
    · exact arenaInv_deallocate
        (arenaInv_set_payload hinv hsl hin (some { nd with qnext := none }))

lemma popLF_empty {P : ArenaParams} {s : QState τ} (h : DRep P s []) :
    (popLF s).1 = Result.eEmpty := by
  obtain ⟨addrs, hc, _, _⟩ := h
  cases addrs with
  | nil =>
    obtain ⟨hh, _⟩ := nodeChain_empty_inv hc
    unfold popLF
    rw [hh]
  | cons a rest =>
    obtain ⟨_, _, _, _, _, _, _, hvs, _⟩ := nodeChain_cons_inv hc
    cases hvs

lemma pushD_step {P : ArenaParams} {s : QState τ} {vs : List τ}
    (hthr : P.alloc_threshold = 0) (h : QRep P s vs) (v : τ) :
    (pushD P s v).1 = Result.eSuccess ∧
    QRep P (pushD P s v).2 (vs ++ [v]) := by
  obtain ⟨addrs, hc, hnd, htail, hinv⟩ := h
  obtain ⟨n, hn⟩ :=
    allocate_some_of_thr0 (v := ({ qnext := none, data := v } : Node τ)) hinv hthr
  obtain ⟨hinv2, hfacts⟩ :=
    allocate_cases (v := ({ qnext := none, data := v } : Node τ)) (s := s.arena) hinv
  obtain ⟨⟨idx, hstn⟩, hpres⟩ := hfacts n hn
  have hc_ar : NodeChain (allocate P s.arena { qnext := none, data := v }).2.store
      s.head addrs vs := by
    refine nodeChain_congr hc ?_
    intro b hb
    obtain ⟨slb, hslb, hinb⟩ := nodeChain_inuse hc b hb
    exact (hpres b slb hslb hinb).2
  have hn_notin : n ∉ addrs := by
    intro hmem
    obtain ⟨slb, hslb, hinb⟩ := nodeChain_inuse hc n hmem
    exact (hpres n slb hslb hinb).1 rfl
  rcases hE : allocate P s.arena { qnext := none, data := v } with ⟨r, ar⟩
  rw [hE] at hn hstn hinv2 hc_ar
  dsimp only at hn hstn hinv2 hc_ar
  subst hn
  unfold pushD
  rw [hE]
  dsimp only
  cases addrs with
  | nil =>
    obtain ⟨hh, hvs⟩ := nodeChain_empty_inv hc
    subst hvs
    rw [hh]
    dsimp only
    refine ⟨rfl, [n], ?_, by simp, by simp, hinv2⟩
    show NodeChain ar.store (some n) [n] [v]
    exact NodeChain.cons hstn rfl rfl rfl NodeChain.nil
  | cons a0 rest =>
    have hh : s.head = some a0 := (nodeChain_cons_inv hc).1
    rw [hh] at hc_ar
    rcases hgl : (a0 :: rest).getLast? with _ | t
    · simp [List.getLast?_eq_none_iff] at hgl
    have htail2 : s.tail = some t := by rw [htail, hgl]
    obtain ⟨sl_t, nd_t, hslt, hint, hplt, hqt⟩ := nodeChain_last hc_ar t hgl
    rw [hh]
    dsimp only
    rw [htail2]
    dsimp only
    rw [hslt]
    dsimp only
    rw [hplt]
    dsimp only
    refine ⟨rfl, (a0 :: rest) ++ [n], ?_, ?_, ?_, ?_⟩
    · dsimp only
      exact nodeChain_append hc_ar hnd hgl hslt hplt hn_notin hstn
    · rw [List.nodup_append]
      refine ⟨hnd, by simp, ?_⟩
      intro x hx hx2
      simp at hx2
      subst hx2
      exact hn_notin hx
    · show some n = ((a0 :: rest) ++ [n]).getLast?
      rw [List.getLast?_concat]
    · exact arenaInv_set_payload hinv2 hslt hint _

lemma popD_step {P : ArenaParams} {s : QState τ} {v : τ} {vs : List τ}
    (h : DRep P s (v :: vs)) :
    (popD s).1 = Result.eSuccess ∧ (popD s).2.1 = some v ∧
    DRep P (popD s).2.2 vs := by
  obtain ⟨addrs, hc, hnd, hinv⟩ := h
  cases addrs with
  | nil =>
    obtain ⟨_, hvs⟩ := nodeChain_empty_inv hc
    cases hvs
  | cons a rest =>
    obtain ⟨hh, sl, nd, vs2, hsl, hin, hpl, hvs, hc2⟩ := nodeChain_cons_inv hc
    have hv : nd.data = v := by
      cases hvs
      rfl
    have hvs2 : vs2 = vs := by
      cases hvs
      rfl
    subst hvs2
    have hanotin : a ∉ rest := (List.nodup_cons.mp hnd).1
    unfold popD
    rw [hh]
    dsimp only
    rw [hsl]
    dsimp only
    rw [hpl]
    dsimp only
    obtain ⟨hres, hsta, hother, _, _, _, _⟩ := deallocate_of_inuse hsl hin
    have hdr : DRep P
        { arena := (deallocate s.arena (some a)).2, head := nd.qnext,
          tail := s.tail } vs2 := by
      refine ⟨rest, ?_, (List.nodup_cons.mp hnd).2, arenaInv_deallocate hinv⟩
      refine nodeChain_congr hc2 ?_
      intro b hb
      have hba : b ≠ a := fun hba => hanotin (hba ▸ hb)
      exact hother b hba
    refine ⟨hres, by rw [hv], ?_⟩
    split
    · exact hdr
    · exact hdr

lemma popD_empty {P : ArenaParams} {s : QState τ} (h : DRep P s []) :
    (popD s).1 = Result.eEmpty := by
  obtain ⟨addrs, hc, _, _⟩ := h
  cases addrs with
  | nil =>
    obtain ⟨hh, _⟩ := nodeChain_empty_inv hc
    unfold popD
    rw [hh]
  | cons a rest =>
    obtain ⟨_, _, _, _, _, _, _, hvs, _⟩ := nodeChain_cons_inv hc
    cases hvs

/-! ## Lemmas: whole-run FIFO -/

lemma qrep_mkQueue (P : ArenaParams) : QRep P (mkQueue (τ := τ) P) [] :=
  ⟨[], NodeChain.nil, List.nodup_nil, rfl, arenaInv_mkArena P⟩

lemma drep_of_qrep {P : ArenaParams} {s : QState τ} {vs : List τ}
    (h : QRep P s vs) : DRep P s vs := by
  obtain ⟨addrs, hc, hnd, _, hinv⟩ := h
  exact ⟨addrs, hc, hnd, hinv⟩

lemma pushAllLF_spec {P : ArenaParams} (ws : List τ)
    (hthr : P.alloc_threshold = 0) :
    ∀ {s : QState τ} {vs0 : List τ}, QRep P s vs0 →
      (pushAllLF P 1 s ws).1 = ws.map (fun _ => some Result.eSuccess) ∧
      QRep P (pushAllLF P 1 s ws).2 (vs0 ++ ws) := by
  induction ws with
  | nil =>
    intro s vs0 h
    exact ⟨rfl, by simpa using h⟩
  | cons w ws ih =>
    intro s vs0 h
    have h1 : (pushLF P 1 s w).1 = some Result.eSuccess :=
      (pushLF_step hthr h w 0).1
    have h2 : QRep P (pushLF P 1 s w).2 (vs0 ++ [w]) :=
      (pushLF_step hthr h w 0).2
    obtain ⟨ih1, ih2⟩ := ih h2
    constructor
    · show (pushLF P 1 s w).1 :: (pushAllLF P 1 (pushLF P 1 s w).2 ws).1
        = some Result.eSuccess :: ws.map (fun _ => some Result.eSuccess)
      rw [h1, ih1]
    · show QRep P (pushAllLF P 1 (pushLF P 1 s w).2 ws).2 (vs0 ++ w :: ws)
      have : vs0 ++ w :: ws = (vs0 ++ [w]) ++ ws := by simp
      rw [this]
      exact ih2

lemma drainLF_spec {P : ArenaParams} {vs : List τ} :
    ∀ {s : QState τ}, DRep P s vs →
      (drainLF vs.length s).1 = vs.map (fun v => (Result.eSuccess, some v)) ∧
      DRep P (drainLF vs.length s).2 [] := by
  induction vs with
  | nil =>
    intro s h
    exact ⟨rfl, h⟩
  | cons v vs ih =>
    intro s h
    obtain ⟨h1, h2, h3⟩ := popLF_step h
    obtain ⟨ih1, ih2⟩ := ih h3
    constructor
    · show ((popLF s).1, (popLF s).2.1) :: (drainLF vs.length (popLF s).2.2).1
        = (Result.eSuccess, some v) :: vs.map (fun v => (Result.eSuccess, some v))
      rw [h1, h2, ih1]
    · exact ih2

lemma pushAllD_spec {P : ArenaParams} (ws : List τ)
    (hthr : P.alloc_threshold = 0) :
    ∀ {s : QState τ} {vs0 : List τ}, QRep P s vs0 →
      (pushAllD P s ws).1 = ws.map (fun _ => Result.eSuccess) ∧
      QRep P (pushAllD P s ws).2 (vs0 ++ ws) := by
  induction ws with
  | nil =>
    intro s vs0 h
    exact ⟨rfl, by simpa using h⟩
  | cons w ws ih =>
    intro s vs0 h
    obtain ⟨h1, h2⟩ := pushD_step hthr h w
    obtain ⟨ih1, ih2⟩ := ih h2
    constructor
    · show (pushD P s w).1 :: (pushAllD P (pushD P s w).2 ws).1
        = Result.eSuccess :: ws.map (fun _ => Result.eSuccess)
      rw [h1, ih1]
    · show QRep P (pushAllD P (pushD P s w).2 ws).2 (vs0 ++ w :: ws)
      have : vs0 ++ w :: ws = (vs0 ++ [w]) ++ ws := by simp
      rw [this]
      exact ih2

lemma drainD_spec {P : ArenaParams} {vs : List τ} :
    ∀ {s : QState τ}, DRep P s vs →
      (drainD vs.length s).1 = vs.map (fun v => (Result.eSuccess, some v)) ∧
      DRep P (drainD vs.length s).2 [] := by
  induction vs with
  | nil =>
    intro s h
    exact ⟨rfl, h⟩
  | cons v vs ih =>
    intro s h
    obtain ⟨h1, h2, h3⟩ := popD_step h
    obtain ⟨ih1, ih2⟩ := ih h3
    constructor
    · show ((popD s).1, (popD s).2.1) :: (drainD vs.length (popD s).2.2).1
        = (Result.eSuccess, some v) :: vs.map (fun v => (Result.eSuccess, some v))
      rw [h1, h2, ih1]
    · exact ih2

/-- C2: for every element type, every synchronous-growth queue
    configuration (`alloc_threshold = 0`, so `allocate` never refuses)
    and every value sequence `vs` pushed from a single thread into an
    initially empty queue, a single-threaded drain returns exactly
    `vs` in order and the next pop returns `eEmpty` — both for the
    lock-free implementation (`_push_imp_lockfree` /
    `_pop_imp_lockfree`) and for the serialized default
    implementation (`_push_imp_default` / `_pop_imp_default`). -/
theorem queue_fifo_single_thread {P : ArenaParams} {τ : Type}
    (hthr : P.alloc_threshold = 0) (vs : List τ) :
    ((pushAllLF P 1 (mkQueue P) vs).1 = vs.map (fun _ => some Result.eSuccess) ∧
     (drainLF vs.length (pushAllLF P 1 (mkQueue P) vs).2).1
       = vs.map (fun v => (Result.eSuccess, some v)) ∧
     (popLF (drainLF vs.length (pushAllLF P 1 (mkQueue P) vs).2).2).1
       = Result.eEmpty) ∧
    ((pushAllD P (mkQueue P) vs).1 = vs.map (fun _ => Result.eSuccess) ∧
     (drainD vs.length (pushAllD P (mkQueue P) vs).2).1
       = vs.map (fun v => (Result.eSuccess, some v)) ∧
     (popD (drainD vs.length (pushAllD P (mkQueue P) vs).2).2).1
       = Result.eEmpty) := by
  constructor
  · obtain ⟨h1, h2⟩ := pushAllLF_spec vs hthr (qrep_mkQueue P)
    obtain ⟨h3, h4⟩ := drainLF_spec (drep_of_qrep h2)
    exact ⟨h1, h3, popLF_empty h4⟩
  · obtain ⟨h1, h2⟩ := pushAllD_spec vs hthr (qrep_mkQueue P)
    obtain ⟨h3, h4⟩ := drainD_spec (drep_of_qrep h2)
    exact ⟨h1, h3, popD_empty h4⟩

theorem queue_fifo_single_thread_witness :
    ((pushAllLF P110 1 (mkQueue P110) [3, 1, 2]).1
       = [3, 1, 2].map (fun _ => some Result.eSuccess) ∧
     (drainLF [3, 1, 2].length (pushAllLF P110 1 (mkQueue P110) [3, 1, 2]).2).1
       = [3, 1, 2].map (fun v => (Result.eSuccess, some v)) ∧
     (popLF (drainLF [3, 1, 2].length
        (pushAllLF P110 1 (mkQueue P110) [3, 1, 2]).2).2).1 = Result.eEmpty) ∧
    ((pushAllD P110 (mkQueue P110) [3, 1, 2]).1
       = [3, 1, 2].map (fun _ => Result.eSuccess) ∧
     (drainD [3, 1, 2].length (pushAllD P110 (mkQueue P110) [3, 1, 2]).2).1
       = [3, 1, 2].map (fun v => (Result.eSuccess, some v)) ∧
     (popD (drainD [3, 1, 2].length
        (pushAllD P110 (mkQueue P110) [3, 1, 2]).2).2).1 = Result.eEmpty) :=
  queue_fifo_single_thread (by decide) ([3, 1, 2] : List Nat)

/-! ## Claim theorems: queue size, tail reset, spin lock, multi-queue -/

/-- C6, counterexample: in the `src/include/queue.h` revision the
    queue DOES maintain a second item counter of its own: `size()`
    reads the queue's `_items` field, so it is not a function of the
    node arena — two queue states over the identical arena report
    different sizes. -/
theorem queue_size_second_counter_counterexample :
    ¬ (∀ s1 s2 : IQState Nat, s1.arena = s2.arena → sizeIQ s1 = sizeIQ s2) := by
  intro h
  have := h { arena := initState, items := 0, head := none, tail := none }
            { arena := initState, items := 1, head := none, tail := none } rfl
  simp [sizeIQ] at this

/-- C6, amended: in the part_008 revision of the queue, `size()`
    returns the node arena's in-use count
    (`_size_imp` returns `_arena.length()`) and the queue state holds
    no item counter; the `src/include/queue.h` revision instead
    maintains its own `_items` counter, which its `size()` returns. -/
theorem queue_size_amended {τ : Type} :
    (∀ s : QState τ, sizeP8 s = arenaLength s.arena) ∧
    (∀ s : IQState τ, sizeIQ s = s.items) :=
  ⟨fun _ => rfl, fun _ => rfl⟩

/-- Queue (part_008, lock-free) holding the single value 7 at slot 0. -/
def c7state : QState Nat := (pushLF P110 2 (mkQueue P110) 7).2

/-- C7, counterexample: in the part_008 revision,
    `_pop_imp_lockfree` performs no CAS of `_tail` at all: popping
    the last node of a one-element queue succeeds and leaves
    `_head = null` but `_tail` still pointing at the detached
    (now freed) node — not null as the claim states. -/
theorem pop_no_tail_cas_counterexample :
    (popLF c7state).1 = Result.eSuccess ∧
    (popLF c7state).2.2.head = none ∧
    (popLF c7state).2.2.tail = some 0 := by
  refine ⟨?_, ?_, ?_⟩ <;> decide

/-- C7, amended: the spec's pop protocol ("if the detached node
    equals tail, CAS tail from it to null") is implemented by the
    `src/include/queue.h` revision, whose pop of the last node leaves
    both head and tail null; the part_008 revision's pop never
    touches `_tail` (the stale tail is instead reset to null by the
    first branch of a later push that observes
    `head = null ∧ tail ≠ null`). -/
theorem pop_tail_reset_amended {τ : Type}
    (s1 : IQState τ) (h1 : Nat) (sl1 : Slot (Node τ)) (nd1 : Node τ)
    (s2 : QState τ)
    (ha : s1.head = some h1) (hb : s1.tail = some h1)
    (hc : s1.arena.store h1 = some sl1) (hd : sl1.payload = some nd1)
    (he : nd1.qnext = none) :
    ((popIQ s1).1 = true ∧ (popIQ s1).2.2.head = none ∧
      (popIQ s1).2.2.tail = none) ∧
    (popLF s2).2.2.tail = s2.tail := by
  constructor
  · unfold popIQ
    rw [ha]
    dsimp only
    rw [hc]
    dsimp only
    rw [hd]
    dsimp only
    rw [he, hb]
    rw [if_pos rfl]
    exact ⟨rfl, rfl, rfl⟩
  · rcases hx : s2.head with _ | hh
    · simp [popLF, hx]
    · rcases hy : s2.arena.store hh with _ | sl
      · simp [popLF, hx, hy]
      · rcases hz : sl.payload with _ | nd
        · simp [popLF, hx, hy, hz]
        · simp [popLF, hx, hy, hz]

/-- Hand-built one-node state of the `src/include/queue.h` queue:
    the single node (value 7) is both head and tail. -/
def c7slot : Slot (Node Nat) :=
  { next := none, inUse := true, index := 0,
    payload := some { qnext := none, data := 7 } }

/-- The node record inside `c7slot`. -/
def c7node : Node Nat := { qnext := none, data := 7 }

/-- The `src/include/queue.h` queue state for the C7 witness. -/
def c7iq : IQState Nat :=
  { arena := { (initState : ArenaState (Node Nat)) with
               store := setSlot (fun _ => none) 0 c7slot },
    items := 1, head := some 0, tail := some 0 }

theorem pop_tail_reset_amended_witness :
    ((popIQ c7iq).1 = true ∧ (popIQ c7iq).2.2.head = none ∧
      (popIQ c7iq).2.2.tail = none) ∧
    (popLF c7state).2.2.tail = c7state.tail :=
  pop_tail_reset_amended c7iq 0 c7slot c7node c7state
    (by decide) (by decide) (by decide) (by decide) (by decide)

/-- C8, counterexample: `core::mutex::try_lock` does NOT return the
    prior value of the lock flag: when the lock is free (prior value
    `false`) it returns `true` (it acquired the lock), not `false`. -/
theorem try_lock_prior_value_counterexample :
    ¬ ((tryLock false).1 = false) := by decide

/-- C8, amended: `try_lock` returns the NEGATION of the prior value
    of the atomic flag — `true` when the lock was free (and the call
    acquired it), `false` when it was already held — and always
    leaves the flag set. -/
theorem try_lock_returns_negated_prior :
    ∀ b : Bool, (tryLock b).1 = !b ∧ (tryLock b).2 = true := by decide

/-- Multi-queue over two sub-queues after one `push(id = 1, 7)`:
    sub-queue 1 holds one element, the pop cursor still points at
    sub-queue 0. -/
def c10state : MQState Nat 2 := (mqPushAt P110 2 (mkMQ P110 2) 1 7).2

/-- C10: `multi_queue::pop()` with no queue-id attempts the pop on
    exactly one sub-queue — the one at the current round-robin
    cursor — advancing the cursor by one position (mod the queue
    count) and leaving every other sub-queue untouched; consequently
    there are reachable states (e.g. `c10state`, built by one push
    routed to sub-queue 1 while the cursor is at 0) where `pop`
    returns `eEmpty` although `size() > 0`. -/
theorem multi_queue_pop_single_subqueue :
    (∀ {τ : Type} {N : Nat} (s : MQState τ N) (h : s.ndxPop < N),
      (mqPop s).2.2.ndxPop = (if s.ndxPop + 1 < N then s.ndxPop + 1 else 0) ∧
      (mqPop s).1 = (popLF (s.qs ⟨s.ndxPop, h⟩)).1 ∧
      (mqPop s).2.1 = (popLF (s.qs ⟨s.ndxPop, h⟩)).2.1 ∧
      (∀ j : Fin N, j ≠ ⟨s.ndxPop, h⟩ → (mqPop s).2.2.qs j = s.qs j)) ∧
    ((mqPop c10state).1 = Result.eEmpty ∧ 0 < mqSize c10state) := by
  constructor
  · intro τ' N s h
    unfold mqPop
    rw [dif_pos h]
    dsimp only
    refine ⟨rfl, rfl, rfl, ?_⟩
    intro j hj
    exact Function.update_noteq hj _ _
  · constructor
    · decide
    · decide

theorem multi_queue_pop_single_subqueue_witness :
    (mqPop c10state).2.2.ndxPop
      = (if c10state.ndxPop + 1 < 2 then c10state.ndxPop + 1 else 0) ∧
    (mqPop c10state).1 = (popLF (c10state.qs ⟨c10state.ndxPop, by decide⟩)).1 ∧
    (mqPop c10state).2.1
      = (popLF (c10state.qs ⟨c10state.ndxPop, by decide⟩)).2.1 ∧
    (∀ j : Fin 2, j ≠ ⟨c10state.ndxPop, by decide⟩ →
      (mqPop c10state).2.2.qs j = c10state.qs j) :=
  multi_queue_pop_single_subqueue.1 c10state (by decide)

end LockFree
